import Mathlib

/-!
# Verification of the Holocron mastery and scheduling core

Shallow embedding of `holocron/core/models.py` (ConceptMastery, Concept,
ConceptGraph) and `holocron/core/mastery.py` (MasteryEngine update rules,
SM-2 scheduler, decay).  Machine reals are modelled as exact rationals;
timestamps are rationals measured in days, so Python's
`timedelta(days=x)` is addition of `x` and `(a - b).days` is `⌊a - b⌋`.
-/

namespace Holocron

/-- Bloom's Taxonomy cognitive levels (`BloomLevel` in models.py). -/
inductive BloomLevel where
  | KNOWLEDGE
  | COMPREHENSION
  | APPLICATION
  | ANALYSIS
  | SYNTHESIS
  | EVALUATION
deriving DecidableEq, Repr

/-- Mastery calculation models (`MasteryModel` in mastery.py). -/
inductive MasteryModel where
  | EXPOSURE_COUNT
  | SPACED_REPETITION
  | ASSESSMENT_BASED
  | HYBRID
deriving DecidableEq, Repr

/-- Result of a learner's assessment attempt (`AssessmentResult` in
models.py); the free-text feedback fields are omitted, they are never
read by the mastery core. -/
structure AssessmentResult where
  assessment_id : String
  learner_id : String
  timestamp : ℚ
  response : String
  is_correct : Bool
  score : ℚ
deriving DecidableEq, Repr

/-- Per-(learner, concept) mastery state (`ConceptMastery` in models.py),
with the dataclass defaults of the Python source. -/
structure ConceptMastery where
  concept_id : String
  learner_id : String
  recognition_score : ℚ := 0
  comprehension_score : ℚ := 0
  application_score : ℚ := 0
  exposure_count : ℕ := 0
  first_exposure : Option ℚ := none
  last_exposure : Option ℚ := none
  last_assessment : Option ℚ := none
  assessment_results : List AssessmentResult := []
  ease_factor : ℚ := 2.5
  interval_days : ℚ := 1
  next_review : Option ℚ := none
deriving DecidableEq, Repr

namespace ConceptMastery

/-- `ConceptMastery.overall_mastery`: weighted average of the dimensions. -/
def overall_mastery (m : ConceptMastery) : ℚ :=
  m.recognition_score * 0.2 + m.comprehension_score * 0.3 + m.application_score * 0.5

/-- `ConceptMastery.get_scaffold_level`: maps mastery to a scaffold level. -/
def get_scaffold_level (m : ConceptMastery) (num_levels : ℕ := 5) : ℕ :=
  if m.overall_mastery < 20 then 1
  else if m.overall_mastery < 40 then 2
  else if m.overall_mastery < 60 then 3
  else if m.overall_mastery < 80 then 4
  else num_levels

end ConceptMastery

/-- The slice of `DomainConfig` (domains/base.py) read by the mastery
engine: identifier, mastery model, decay rate and scaffold level count. -/
structure DomainConfig where
  domain_id : String
  mastery_model : MasteryModel := .HYBRID
  mastery_decay_rate : ℚ := 0.05
  scaffold_levels : ℕ := 5
deriving DecidableEq, Repr

/-- Result of a mastery update operation (`MasteryUpdate` in mastery.py),
with the dataclass defaults of the source. -/
structure MasteryUpdate where
  concept_id : String
  previous_mastery : ℚ
  new_mastery : ℚ
  previous_scaffold_level : ℕ
  new_scaffold_level : ℕ
  mastery_delta : ℚ
  new_exposure_count : ℕ := 0
  new_next_review : Option ℚ := none
deriving DecidableEq, Repr

/-- Python's `int()` on a rational: truncation toward zero. -/
def pyInt (x : ℚ) : ℤ :=
  if 0 ≤ x then ⌊x⌋ else ⌈x⌉

/-- The mastery dimension selected by a Bloom level
(the `getattr`/`setattr` dimension dispatch in `update_from_assessment`). -/
inductive Dimension where
  | recognition
  | comprehension
  | application
deriving DecidableEq, Repr

/-- Bloom level → dimension mapping of `update_from_assessment`. -/
def bloomDimension (b : BloomLevel) : Dimension :=
  match b with
  | .KNOWLEDGE => .recognition
  | .COMPREHENSION | .ANALYSIS => .comprehension
  | _ => .application

/-- `getattr(mastery, dimension)`. -/
def getDim (m : ConceptMastery) (d : Dimension) : ℚ :=
  match d with
  | .recognition => m.recognition_score
  | .comprehension => m.comprehension_score
  | .application => m.application_score

/-- `setattr(mastery, dimension, v)`. -/
def setDim (m : ConceptMastery) (d : Dimension) (v : ℚ) : ConceptMastery :=
  match d with
  | .recognition => { m with recognition_score := v }
  | .comprehension => { m with comprehension_score := v }
  | .application => { m with application_score := v }

/-- `MasteryEngine.update_from_exposure`, acting on the record the engine
looked up for `concept_id`; the current clock value is passed in as `now`. -/
def updateFromExposure (cfg : DomainConfig) (m0 : ConceptMastery)
    (exposure_quality : ℚ := 1) (now : ℚ := 0) : ConceptMastery × MasteryUpdate :=
  let previous_mastery := m0.overall_mastery
  let previous_level := m0.get_scaffold_level cfg.scaffold_levels
  let m1 := { m0 with
    exposure_count := m0.exposure_count + 1,
    first_exposure := match m0.first_exposure with
      | none => some now
      | some t => some t,
    last_exposure := some now }
  let recognition_gain := 15 * exposure_quality * (1 - m1.recognition_score / 100)
  let m2 := { m1 with
    recognition_score := min 100 (m1.recognition_score + recognition_gain) }
  let m3 :=
    if cfg.mastery_model = .EXPOSURE_COUNT ∨ cfg.mastery_model = .HYBRID then
      let comprehension_gain := 5 * exposure_quality * (1 - m2.comprehension_score / 100)
      { m2 with
        comprehension_score := min 100 (m2.comprehension_score + comprehension_gain) }
    else m2
  (m3,
    { concept_id := m0.concept_id,
      previous_mastery := previous_mastery,
      new_mastery := m3.overall_mastery,
      previous_scaffold_level := previous_level,
      new_scaffold_level := m3.get_scaffold_level cfg.scaffold_levels,
      mastery_delta := m3.overall_mastery - previous_mastery,
      new_exposure_count := m3.exposure_count,
      new_next_review := m3.next_review })

/-- `MasteryEngine._update_spaced_repetition` (SM-2 variant). -/
def updateSpacedRepetition (m0 : ConceptMastery) (quality : ℚ) (now : ℚ) :
    ConceptMastery :=
  let q : ℤ := pyInt (quality * 5)
  let m1 := { m0 with
    ease_factor :=
      max 1.3 (m0.ease_factor + 0.1 - (5 - (q : ℚ)) * (0.08 + (5 - (q : ℚ)) * 0.02)) }
  let m2 :=
    if 3 ≤ q then
      if m1.exposure_count ≤ 1 then { m1 with interval_days := 1 }
      else if m1.exposure_count = 2 then { m1 with interval_days := 6 }
      else { m1 with interval_days := m1.interval_days * m1.ease_factor }
    else { m1 with interval_days := 1 }
  { m2 with next_review := some (now + m2.interval_days) }

/-- `MasteryEngine.update_from_assessment`, acting on the record the engine
looked up for `concept_id`. -/
def updateFromAssessment (cfg : DomainConfig) (m0 : ConceptMastery)
    (result : AssessmentResult) (bloom_level : BloomLevel) (now : ℚ := 0) :
    ConceptMastery × MasteryUpdate :=
  let previous_mastery := m0.overall_mastery
  let previous_level := m0.get_scaffold_level cfg.scaffold_levels
  let m1 := { m0 with
    assessment_results := m0.assessment_results ++ [result],
    last_assessment := some now }
  let dimension := bloomDimension bloom_level
  let current := getDim m1 dimension
  let m2 :=
    if result.is_correct then
      let gain := 20 * result.score * (1 - current / 100)
      let m := setDim m1 dimension (min 100 (current + gain))
      updateSpacedRepetition m result.score now
    else
      let loss := 10 * (1 - result.score)
      let m := setDim m1 dimension (max 0 (current - loss))
      { m with interval_days := 1, next_review := some (now + 1) }
  (m2,
    { concept_id := m0.concept_id,
      previous_mastery := previous_mastery,
      new_mastery := m2.overall_mastery,
      previous_scaffold_level := previous_level,
      new_scaffold_level := m2.get_scaffold_level cfg.scaffold_levels,
      mastery_delta := m2.overall_mastery - previous_mastery })

/-- The per-record body of `MasteryEngine.apply_decay`. -/
def applyDecayRecord (cfg : DomainConfig) (now : ℚ) (m : ConceptMastery) :
    ConceptMastery :=
  match m.last_exposure with
  | none => m
  | some last =>
    let days_since : ℤ := ⌊now - last⌋
    let decay := cfg.mastery_decay_rate * (days_since : ℚ)
    { m with
      recognition_score := max 0 (m.recognition_score - decay * 0.5),
      comprehension_score := max 0 (m.comprehension_score - decay * 0.7),
      application_score := max 0 (m.application_score - decay * 1.0) }

/-- `MasteryEngine.apply_decay` over the records of the engine's domain. -/
def applyDecay (cfg : DomainConfig) (records : List ConceptMastery)
    (now : ℚ) : List ConceptMastery :=
  if cfg.mastery_model = .SPACED_REPETITION ∨ cfg.mastery_model = .HYBRID then
    records.map (applyDecayRecord cfg now)
  else
    records

/-- A learnable concept (`Concept` in models.py).  Only the identity and
relationship fields are carried: the pedagogical content fields
(definition, examples, analogies, …) are never read by the graph. -/
structure Concept where
  concept_id : String
  domain_id : String
  name : String
  description : String
  prerequisites : List String := []
  related_concepts : List String := []
  parent_concept : Option String := none
deriving DecidableEq, Repr

/-- Insert-or-replace on an association list, keeping the original
position of an existing key: the semantics of `dict.__setitem__`. -/
def dictInsert (k : String) (v : Concept) :
    List (String × Concept) → List (String × Concept)
  | [] => [(k, v)]
  | (k', v') :: rest =>
    if k' = k then (k, v) :: rest else (k', v') :: dictInsert k v rest

/-- Knowledge graph of concepts (`ConceptGraph` in models.py); the
`concepts` dict is modelled as an insertion-ordered association list. -/
structure ConceptGraph where
  domain_id : String
  concepts : List (String × Concept) := []
  prerequisite_edges : List (String × String) := []
  related_edges : List (String × String) := []
  hierarchy_edges : List (String × String) := []
deriving DecidableEq, Repr

namespace ConceptGraph

/-- `ConceptGraph.add_concept`. -/
def add_concept (g : ConceptGraph) (concept : Concept) : ConceptGraph :=
  let g1 := { g with concepts := dictInsert concept.concept_id concept g.concepts }
  let g2 := { g1 with
    prerequisite_edges := g1.prerequisite_edges ++
      concept.prerequisites.map (fun prereq => (prereq, concept.concept_id)) }
  let g3 := { g2 with
    related_edges := concept.related_concepts.foldl
      (fun es related =>
        if (concept.concept_id, related) ∈ es then es
        else es ++ [(concept.concept_id, related)])
      g2.related_edges }
  match concept.parent_concept with
  | some parent =>
    { g3 with hierarchy_edges := g3.hierarchy_edges ++ [(parent, concept.concept_id)] }
  | none => g3

/-- `ConceptGraph.get_prerequisites`, factored over an edge list. -/
def prereqsOf (edges : List (String × String)) (concept_id : String) : List String :=
  (edges.filter (fun e => e.2 = concept_id)).map (fun e => e.1)

/-- `ConceptGraph.get_prerequisites`. -/
def get_prerequisites (g : ConceptGraph) (concept_id : String) : List String :=
  prereqsOf g.prerequisite_edges concept_id

/-- State of the nested `dfs` closure in `get_learning_path`. -/
structure DfsSt where
  visited : List String
  path : List String
deriving DecidableEq, Repr

/-- The recursive `dfs` closure of `get_learning_path`.  The Python
recursion is unbounded but terminates because `visited` grows; here it
is driven by a fuel argument, which `get_learning_path` instantiates
large enough that the zero-fuel case is never reached. -/
def dfs (edges : List (String × String)) (fuel : ℕ) (c : String) (s : DfsSt) :
    DfsSt :=
  match fuel with
  | 0 => s
  | n + 1 =>
    if c ∈ s.visited then s
    else
      let s1 : DfsSt := ⟨c :: s.visited, s.path⟩
      let s2 := (prereqsOf edges c).foldl (fun t p => dfs edges n p t) s1
      ⟨s2.visited, s2.path ++ [c]⟩

/-- Fuel bound used by `get_learning_path`: every node `dfs` can ever
visit is the target or the source of a prerequisite edge, and recursion
depth is bounded by the number of visited nodes. -/
def fuelBound (edges : List (String × String)) : ℕ :=
  (edges.map Prod.fst).dedup.length + 2

/-- `ConceptGraph.get_learning_path`. -/
def get_learning_path (g : ConceptGraph) (target_concept : String) : List String :=
  (dfs g.prerequisite_edges (fuelBound g.prerequisite_edges) target_concept ⟨[], []⟩).path

/-- `ConceptGraph.get_next_concepts`; the Python `mastered` set is
modelled as a list queried by membership. -/
def get_next_concepts (g : ConceptGraph) (mastered : List String) : List String :=
  (g.concepts.map (fun kv => kv.1)).filter
    (fun concept_id =>
      decide (concept_id ∉ mastered) &&
      decide (∀ p ∈ g.get_prerequisites concept_id, p ∈ mastered))

end ConceptGraph

/-- Fold a batch of concepts into a fresh graph by repeated
`add_concept` calls. -/
def buildGraph (domain_id : String) (concepts : List Concept) : ConceptGraph :=
  concepts.foldl ConceptGraph.add_concept { domain_id := domain_id }

/-! ## Sample records used in concrete statements -/

/-- A record whose overall mastery is `50` (application dimension 100,
other dimensions 0, all remaining fields at their dataclass defaults). -/
def halfMastery : ConceptMastery :=
  { concept_id := "c", learner_id := "l", application_score := 100 }

/-- A freshly created record, as produced by `LearnerProfile.get_mastery`
on first access: all dimensions 0 and every other field at its default. -/
def freshMastery : ConceptMastery :=
  { concept_id := "c", learner_id := "l" }

/-! ## C1: scaffold level thresholds -/

/-- C1 (counterexample): as stated, the claim quantifies over *every*
`num_levels`, but for `num_levels = 2` a record of overall mastery 50
gets scaffold level 3, outside `[1, 2]`: the middle buckets do not scale
down with `num_levels`. -/
theorem scaffold_level_range_cex :
    halfMastery.get_scaffold_level 2 = 3 ∧ ¬ halfMastery.get_scaffold_level 2 ≤ 2 := by
  norm_num [ConceptMastery.get_scaffold_level, ConceptMastery.overall_mastery,
    halfMastery]

/-- C1 (amended): for every mastery record and every `num_levels ≥ 4`,
`get_scaffold_level` returns a level in `[1, num_levels]` determined by
the fixed thresholds 20/40/60/80 on `overall_mastery`, and the boundary
mastery values 19.9/20/39.9/40/59.9/60/79.9/80/99.9 map to levels
1/2/2/3/3/4/4/N/N for `num_levels = N`. -/
theorem scaffold_level_ok (m : ConceptMastery) (num_levels : ℕ)
    (h4 : 4 ≤ num_levels) :
    (1 ≤ m.get_scaffold_level num_levels ∧ m.get_scaffold_level num_levels ≤ num_levels)
    ∧ (m.overall_mastery < 20 → m.get_scaffold_level num_levels = 1)
    ∧ (20 ≤ m.overall_mastery → m.overall_mastery < 40 →
        m.get_scaffold_level num_levels = 2)
    ∧ (40 ≤ m.overall_mastery → m.overall_mastery < 60 →
        m.get_scaffold_level num_levels = 3)
    ∧ (60 ≤ m.overall_mastery → m.overall_mastery < 80 →
        m.get_scaffold_level num_levels = 4)
    ∧ (80 ≤ m.overall_mastery → m.get_scaffold_level num_levels = num_levels)
    ∧ (m.overall_mastery = 19.9 → m.get_scaffold_level num_levels = 1)
    ∧ (m.overall_mastery = 20 → m.get_scaffold_level num_levels = 2)
    ∧ (m.overall_mastery = 39.9 → m.get_scaffold_level num_levels = 2)
    ∧ (m.overall_mastery = 40 → m.get_scaffold_level num_levels = 3)
    ∧ (m.overall_mastery = 59.9 → m.get_scaffold_level num_levels = 3)
    ∧ (m.overall_mastery = 60 → m.get_scaffold_level num_levels = 4)
    ∧ (m.overall_mastery = 79.9 → m.get_scaffold_level num_levels = 4)
    ∧ (m.overall_mastery = 80 → m.get_scaffold_level num_levels = num_levels)
    ∧ (m.overall_mastery = 99.9 → m.get_scaffold_level num_levels = num_levels) := by
  unfold ConceptMastery.get_scaffold_level
  split_ifs with h1 h2 h3 h5 <;>
    refine ⟨⟨by omega, by omega⟩, ?_, ?_, ?_, ?_, ?_, ?_, ?_, ?_, ?_, ?_, ?_, ?_, ?_, ?_⟩ <;>
    (intros; first | rfl | linarith)

/-- C1 (witness for the amended theorem at `num_levels = 5`). -/
theorem scaffold_level_ok_witness :
    4 ≤ 5 ∧ (1 ≤ halfMastery.get_scaffold_level 5 ∧
      halfMastery.get_scaffold_level 5 ≤ 5) :=
  ⟨by norm_num, (scaffold_level_ok halfMastery 5 (by norm_num)).1⟩

/-! ## Field-preservation lemmas for the dimension dispatch and the
SM-2 step -/

@[simp] theorem setDim_ease_factor (m : ConceptMastery) (d : Dimension) (v : ℚ) :
    (setDim m d v).ease_factor = m.ease_factor := by cases d <;> rfl

@[simp] theorem setDim_interval_days (m : ConceptMastery) (d : Dimension) (v : ℚ) :
    (setDim m d v).interval_days = m.interval_days := by cases d <;> rfl

@[simp] theorem setDim_next_review (m : ConceptMastery) (d : Dimension) (v : ℚ) :
    (setDim m d v).next_review = m.next_review := by cases d <;> rfl

@[simp] theorem setDim_exposure_count (m : ConceptMastery) (d : Dimension) (v : ℚ) :
    (setDim m d v).exposure_count = m.exposure_count := by cases d <;> rfl

@[simp] theorem setDim_first_exposure (m : ConceptMastery) (d : Dimension) (v : ℚ) :
    (setDim m d v).first_exposure = m.first_exposure := by cases d <;> rfl

@[simp] theorem setDim_last_exposure (m : ConceptMastery) (d : Dimension) (v : ℚ) :
    (setDim m d v).last_exposure = m.last_exposure := by cases d <;> rfl

@[simp] theorem getDim_setDim (m : ConceptMastery) (d : Dimension) (v : ℚ) :
    getDim (setDim m d v) d = v := by cases d <;> rfl

theorem getDim_setDim_ne (m : ConceptMastery) (d d' : Dimension) (v : ℚ)
    (h : d' ≠ d) : getDim (setDim m d v) d' = getDim m d' := by
  cases d <;> cases d' <;> first | rfl | exact absurd rfl h

/-- The SM-2 step only rewrites the scheduling fields. -/
theorem updateSpacedRepetition_frame (m : ConceptMastery) (quality now : ℚ) :
    (updateSpacedRepetition m quality now).recognition_score = m.recognition_score
    ∧ (updateSpacedRepetition m quality now).comprehension_score = m.comprehension_score
    ∧ (updateSpacedRepetition m quality now).application_score = m.application_score
    ∧ (updateSpacedRepetition m quality now).exposure_count = m.exposure_count
    ∧ (updateSpacedRepetition m quality now).first_exposure = m.first_exposure
    ∧ (updateSpacedRepetition m quality now).last_exposure = m.last_exposure := by
  unfold updateSpacedRepetition
  dsimp only
  split_ifs <;> simp

/-- Behaviour of the SM-2 step on a non-negative quality signal. -/
theorem updateSpacedRepetition_spec (m : ConceptMastery) (quality now : ℚ)
    (h0 : 0 ≤ quality) :
    (updateSpacedRepetition m quality now).ease_factor =
      max 1.3 (m.ease_factor + 0.1 - (5 - (⌊quality * 5⌋ : ℚ)) *
        (0.08 + (5 - (⌊quality * 5⌋ : ℚ)) * 0.02))
    ∧ (updateSpacedRepetition m quality now).interval_days =
      (if 3 ≤ ⌊quality * 5⌋ then
        (if m.exposure_count ≤ 1 then 1
         else if m.exposure_count = 2 then 6
         else m.interval_days * (updateSpacedRepetition m quality now).ease_factor)
       else 1)
    ∧ (updateSpacedRepetition m quality now).next_review =
      some (now + (updateSpacedRepetition m quality now).interval_days) := by
  have hq : pyInt (quality * 5) = ⌊quality * 5⌋ := by
    unfold pyInt
    rw [if_pos (by positivity)]
  unfold updateSpacedRepetition
  dsimp only
  rw [hq]
  split_ifs <;> simp

/-! ## C2: spaced-repetition scheduling on a correct assessment -/

/-- C2: on a correct assessment with score in `[0,1]`, the scheduler sets
`q = ⌊score·5⌋`, applies the SM-2 ease recurrence floored at 1.3 (so the
resulting ease factor is never below 1.3), sets the interval to 1 for
`q < 3`, and for `q ≥ 3` to 1 / 6 / `interval·ease` according to
`exposure_count`, and finally schedules `next_review = now + interval`. -/
theorem sm2_on_correct (cfg : DomainConfig) (m : ConceptMastery)
    (result : AssessmentResult) (bloom_level : BloomLevel) (now : ℚ)
    (hc : result.is_correct = true) (h0 : 0 ≤ result.score)
    (m' : ConceptMastery)
    (hm' : m' = (updateFromAssessment cfg m result bloom_level now).1) :
    m'.ease_factor = max 1.3 (m.ease_factor + 0.1 -
        (5 - (⌊result.score * 5⌋ : ℚ)) *
          (0.08 + (5 - (⌊result.score * 5⌋ : ℚ)) * 0.02))
    ∧ 1.3 ≤ m'.ease_factor
    ∧ m'.interval_days =
      (if 3 ≤ ⌊result.score * 5⌋ then
        (if m.exposure_count ≤ 1 then 1
         else if m.exposure_count = 2 then 6
         else m.interval_days * m'.ease_factor)
       else 1)
    ∧ m'.next_review = some (now + m'.interval_days) := by
  subst hm'
  unfold updateFromAssessment
  dsimp only
  rw [if_pos hc]
  set mset := setDim { m with
      assessment_results := m.assessment_results ++ [result],
      last_assessment := some now }
    (bloomDimension bloom_level)
    (min 100
      (getDim { m with
          assessment_results := m.assessment_results ++ [result],
          last_assessment := some now } (bloomDimension bloom_level) +
        20 * result.score *
          (1 - getDim { m with
              assessment_results := m.assessment_results ++ [result],
              last_assessment := some now } (bloomDimension bloom_level) / 100))) with hms
  obtain ⟨he, hi, hn⟩ := updateSpacedRepetition_spec mset result.score now h0
  have hee : mset.ease_factor = m.ease_factor := by
    rw [hms]; simp
  have hxx : mset.exposure_count = m.exposure_count := by
    rw [hms]; simp
  have hii : mset.interval_days = m.interval_days := by
    rw [hms]; simp
  refine ⟨?_, ?_, ?_, ?_⟩
  · rw [he, hee]
  · rw [he, hee]; exact le_max_left _ _
  · rw [hi, hxx, hii]
  · exact hn

/-- A correct full-score assessment result used in concrete statements. -/
def correctResult : AssessmentResult :=
  { assessment_id := "a", learner_id := "l", timestamp := 0, response := "r",
    is_correct := true, score := 1 }

/-- An incorrect zero-score assessment result used in concrete statements. -/
def wrongResult : AssessmentResult :=
  { assessment_id := "a", learner_id := "l", timestamp := 0, response := "r",
    is_correct := false, score := 0 }

/-- A default (`hybrid`) domain configuration used in concrete statements. -/
def cfgHybrid : DomainConfig := { domain_id := "d" }

/-- C2 (witness): the theorem instantiated on a fresh record receiving a
full-score correct assessment. -/
theorem sm2_on_correct_witness :
    correctResult.is_correct = true ∧ (0 : ℚ) ≤ correctResult.score ∧
      (1.3 : ℚ) ≤
        ((updateFromAssessment cfgHybrid freshMastery correctResult
            .KNOWLEDGE 0).1).ease_factor :=
  ⟨rfl, by norm_num [correctResult],
    (sm2_on_correct cfgHybrid freshMastery correctResult .KNOWLEDGE 0 rfl
      (by norm_num [correctResult]) _ rfl).2.1⟩

/-! ## C3: incorrect assessment -/

/-- C3: on an incorrect assessment, exactly the dimension selected by the
Bloom level drops by `10·(1 − score)` floored at 0, and — whatever the
prior ease factor and interval were — the interval becomes exactly 1 day
and the next review is scheduled for `now + 1` day. -/
theorem incorrect_assessment (cfg : DomainConfig) (m : ConceptMastery)
    (result : AssessmentResult) (bloom_level : BloomLevel) (now : ℚ)
    (hc : result.is_correct = false)
    (m' : ConceptMastery)
    (hm' : m' = (updateFromAssessment cfg m result bloom_level now).1) :
    getDim m' (bloomDimension bloom_level) =
      max 0 (getDim m (bloomDimension bloom_level) - 10 * (1 - result.score))
    ∧ (∀ d, d ≠ bloomDimension bloom_level → getDim m' d = getDim m d)
    ∧ m'.interval_days = 1
    ∧ m'.next_review = some (now + 1)
    ∧ m'.ease_factor = m.ease_factor := by
  subst hm'
  unfold updateFromAssessment
  dsimp only
  rw [if_neg (by simp [hc])]
  cases bloom_level <;>
    exact ⟨rfl, fun d hd => by cases d <;> first | rfl | exact absurd rfl hd,
      rfl, rfl, rfl⟩

/-- C3 (witness): an incorrect zero-score assessment on the half-mastered
record forces a one-day interval. -/
theorem incorrect_assessment_witness :
    wrongResult.is_correct = false ∧
      ((updateFromAssessment cfgHybrid halfMastery wrongResult
          .APPLICATION 0).1).interval_days = 1 :=
  ⟨rfl, (incorrect_assessment cfgHybrid halfMastery wrongResult .APPLICATION 0
    rfl _ rfl).2.2.1⟩

/-! ## C4: dimension clamping and the overall-mastery invariant -/

/-- All three mastery dimensions lie within `[0, 100]`. -/
def InRange (m : ConceptMastery) : Prop :=
  0 ≤ m.recognition_score ∧ m.recognition_score ≤ 100 ∧
  0 ≤ m.comprehension_score ∧ m.comprehension_score ≤ 100 ∧
  0 ≤ m.application_score ∧ m.application_score ≤ 100

theorem getDim_bounds (m : ConceptMastery) (d : Dimension) (hm : InRange m) :
    0 ≤ getDim m d ∧ getDim m d ≤ 100 := by
  obtain ⟨h1, h2, h3, h4, h5, h6⟩ := hm
  cases d <;> exact ⟨by assumption, by assumption⟩

theorem InRange_setDim (m : ConceptMastery) (d : Dimension) (v : ℚ)
    (hm : InRange m) (h0 : 0 ≤ v) (h1 : v ≤ 100) : InRange (setDim m d v) := by
  obtain ⟨g1, g2, g3, g4, g5, g6⟩ := hm
  cases d <;> exact ⟨by simpa [setDim], by simpa [setDim], by simpa [setDim],
    by simpa [setDim], by simpa [setDim], by simpa [setDim]⟩

/-- The clamped diminishing-returns gain keeps a dimension in `[0,100]`
when the base rate and the quality signal are non-negative. -/
theorem gain_bounds (base s r : ℚ) (hbase : 0 ≤ base) (h0 : 0 ≤ s)
    (hr0 : 0 ≤ r) (hr1 : r ≤ 100) :
    0 ≤ min 100 (r + base * s * (1 - r / 100)) ∧
      min 100 (r + base * s * (1 - r / 100)) ≤ 100 := by
  refine ⟨le_min (by norm_num) ?_, min_le_left _ _⟩
  have hg : 0 ≤ base * s * (1 - r / 100) :=
    mul_nonneg (mul_nonneg hbase h0) (by linarith)
  linarith

/-- The SM-2 step never touches the mastery dimensions. -/
theorem InRange_updateSpacedRepetition (m : ConceptMastery) (q now : ℚ)
    (h : InRange m) : InRange (updateSpacedRepetition m q now) := by
  obtain ⟨f1, f2, f3, -, -, -⟩ := updateSpacedRepetition_frame m q now
  unfold InRange at h ⊢
  rw [f1, f2, f3]
  exact h

/-- C4: `overall_mastery` is exactly the 0.2/0.3/0.5 weighted sum, it lies
in `[0,100]` whenever the dimensions do, and each engine operation —
exposure and assessment updates with quality/score in `[0,1]`, and decay
with a non-negative decay rate on a record whose last exposure is not in
the future (true of every reachable record) — keeps all three dimensions
inside `[0,100]`. -/
theorem mastery_invariant :
    (∀ m : ConceptMastery, m.overall_mastery =
      0.2 * m.recognition_score + 0.3 * m.comprehension_score +
        0.5 * m.application_score)
    ∧ (∀ m : ConceptMastery, InRange m →
        0 ≤ m.overall_mastery ∧ m.overall_mastery ≤ 100)
    ∧ (∀ (cfg : DomainConfig) (m : ConceptMastery) (q now : ℚ), InRange m →
        0 ≤ q → q ≤ 1 → InRange (updateFromExposure cfg m q now).1)
    ∧ (∀ (cfg : DomainConfig) (m : ConceptMastery) (r : AssessmentResult)
        (b : BloomLevel) (now : ℚ), InRange m → 0 ≤ r.score → r.score ≤ 1 →
        InRange (updateFromAssessment cfg m r b now).1)
    ∧ (∀ (cfg : DomainConfig) (now : ℚ) (m : ConceptMastery), InRange m →
        0 ≤ cfg.mastery_decay_rate → (∀ t, m.last_exposure = some t → t ≤ now) →
        InRange (applyDecayRecord cfg now m)) := by
  refine ⟨?_, ?_, ?_, ?_, ?_⟩
  · intro m
    unfold ConceptMastery.overall_mastery
    ring
  · intro m hm
    obtain ⟨h1, h2, h3, h4, h5, h6⟩ := hm
    unfold ConceptMastery.overall_mastery
    constructor <;> linarith
  · intro cfg m q now hm h0 h1
    obtain ⟨g1, g2, g3, g4, g5, g6⟩ := hm
    unfold updateFromExposure
    dsimp only
    split_ifs <;>
      first
      | exact ⟨(gain_bounds 15 q _ (by norm_num) h0 g1 g2).1,
          (gain_bounds 15 q _ (by norm_num) h0 g1 g2).2,
          (gain_bounds 5 q _ (by norm_num) h0 g3 g4).1,
          (gain_bounds 5 q _ (by norm_num) h0 g3 g4).2, g5, g6⟩
      | exact ⟨(gain_bounds 15 q _ (by norm_num) h0 g1 g2).1,
          (gain_bounds 15 q _ (by norm_num) h0 g1 g2).2, g3, g4, g5, g6⟩
  · intro cfg m r b now hm h0 h1
    unfold updateFromAssessment
    dsimp only
    have hm1 : InRange { m with
        assessment_results := m.assessment_results ++ [r],
        last_assessment := some now } := hm
    have hcur := getDim_bounds { m with
        assessment_results := m.assessment_results ++ [r],
        last_assessment := some now } (bloomDimension b) hm1
    split_ifs with hc
    · exact InRange_updateSpacedRepetition _ _ _
        (InRange_setDim _ _ _ hm1
          (gain_bounds 20 r.score _ (by norm_num) h0 hcur.1 hcur.2).1
          (gain_bounds 20 r.score _ (by norm_num) h0 hcur.1 hcur.2).2)
    · exact InRange_setDim _ _ _ hm1 (le_max_left _ _)
        (max_le (by norm_num) (by linarith [hcur.2]))
  · intro cfg now m hm hrate hfut
    unfold applyDecayRecord
    split
    · exact hm
    · rename_i last hlast
      obtain ⟨g1, g2, g3, g4, g5, g6⟩ := hm
      have hd : 0 ≤ cfg.mastery_decay_rate * ((⌊now - last⌋ : ℤ) : ℚ) := by
        apply mul_nonneg hrate
        have hz : (0 : ℤ) ≤ ⌊now - last⌋ :=
          Int.floor_nonneg.mpr (by have := hfut last hlast; linarith)
        exact_mod_cast hz
      have h5 : 0 ≤ cfg.mastery_decay_rate * ((⌊now - last⌋ : ℤ) : ℚ) * 0.5 :=
        mul_nonneg hd (by norm_num)
      have h7 : 0 ≤ cfg.mastery_decay_rate * ((⌊now - last⌋ : ℤ) : ℚ) * 0.7 :=
        mul_nonneg hd (by norm_num)
      have h10 : 0 ≤ cfg.mastery_decay_rate * ((⌊now - last⌋ : ℤ) : ℚ) * 1.0 :=
        mul_nonneg hd (by norm_num)
      dsimp only
      exact ⟨le_max_left _ _, max_le (by norm_num) (by linarith),
        le_max_left _ _, max_le (by norm_num) (by linarith),
        le_max_left _ _, max_le (by norm_num) (by linarith)⟩

/-- C4 (witness): the exposure-update conjunct instantiated on a fresh
record with full quality. -/
theorem mastery_invariant_witness :
    InRange freshMastery ∧ (0 : ℚ) ≤ 1 ∧ (1 : ℚ) ≤ 1 ∧
      InRange (updateFromExposure cfgHybrid freshMastery 1 0).1 :=
  ⟨⟨by norm_num [freshMastery], by norm_num [freshMastery],
      by norm_num [freshMastery], by norm_num [freshMastery],
      by norm_num [freshMastery], by norm_num [freshMastery]⟩,
    by norm_num, by norm_num,
    mastery_invariant.2.2.1 cfgHybrid freshMastery 1 0
      ⟨by norm_num [freshMastery], by norm_num [freshMastery],
        by norm_num [freshMastery], by norm_num [freshMastery],
        by norm_num [freshMastery], by norm_num [freshMastery]⟩
      (by norm_num) (by norm_num)⟩

@[simp] theorem updateSpacedRepetition_exposure_count (m : ConceptMastery)
    (q now : ℚ) :
    (updateSpacedRepetition m q now).exposure_count = m.exposure_count :=
  (updateSpacedRepetition_frame m q now).2.2.2.1

@[simp] theorem updateSpacedRepetition_first_exposure (m : ConceptMastery)
    (q now : ℚ) :
    (updateSpacedRepetition m q now).first_exposure = m.first_exposure :=
  (updateSpacedRepetition_frame m q now).2.2.2.2.1

@[simp] theorem updateSpacedRepetition_last_exposure (m : ConceptMastery)
    (q now : ℚ) :
    (updateSpacedRepetition m q now).last_exposure = m.last_exposure :=
  (updateSpacedRepetition_frame m q now).2.2.2.2.2

/-! ## C9: frame effects of `update_from_assessment` -/

/-- C9: an assessment update never touches `exposure_count`,
`first_exposure` or `last_exposure` (only the exposure update does, which
increments the count and stamps `last_exposure`), and the `MasteryUpdate`
it returns carries the field defaults `new_exposure_count = 0` and
`new_next_review = None` rather than the record's actual values. -/
theorem assessment_frame (cfg : DomainConfig) (m : ConceptMastery)
    (result : AssessmentResult) (bloom_level : BloomLevel) (now : ℚ) :
    ((updateFromAssessment cfg m result bloom_level now).1.exposure_count =
        m.exposure_count
      ∧ (updateFromAssessment cfg m result bloom_level now).1.first_exposure =
        m.first_exposure
      ∧ (updateFromAssessment cfg m result bloom_level now).1.last_exposure =
        m.last_exposure
      ∧ (updateFromAssessment cfg m result bloom_level now).2.new_exposure_count = 0
      ∧ (updateFromAssessment cfg m result bloom_level now).2.new_next_review = none)
    ∧ (∀ q now2 : ℚ,
        (updateFromExposure cfg m q now2).1.exposure_count = m.exposure_count + 1
        ∧ (updateFromExposure cfg m q now2).1.last_exposure = some now2) := by
  constructor
  · unfold updateFromAssessment
    dsimp only
    split_ifs <;> exact ⟨by simp, by simp, by simp, rfl, rfl⟩
  · intro q now2
    unfold updateFromExposure
    dsimp only
    split_ifs <;> exact ⟨rfl, rfl⟩

/-! ## C5: repeated full-quality exposures -/

/-- The record after `n` full-quality `update_from_exposure` calls on a
fresh record. -/
def exposureIter (cfg : DomainConfig) (now : ℚ) : ℕ → ConceptMastery
  | 0 => freshMastery
  | n + 1 => (updateFromExposure cfg (exposureIter cfg now n) 1 now).1

/-- Recognition recurrence of `update_from_exposure`. -/
theorem exposure_recognition_step (cfg : DomainConfig) (m : ConceptMastery)
    (q now : ℚ) :
    (updateFromExposure cfg m q now).1.recognition_score =
      min 100 (m.recognition_score + 15 * q * (1 - m.recognition_score / 100)) := by
  unfold updateFromExposure
  dsimp only
  split_ifs <;> rfl

theorem exposureIter_bounds (cfg : DomainConfig) (now : ℚ) : ∀ n : ℕ,
    0 ≤ (exposureIter cfg now n).recognition_score ∧
      (exposureIter cfg now n).recognition_score < 100 := by
  intro n
  induction n with
  | zero => exact ⟨le_refl 0, by norm_num [exposureIter, freshMastery]⟩
  | succ n ih =>
    obtain ⟨h0, h1⟩ := ih
    show 0 ≤ (updateFromExposure cfg (exposureIter cfg now n) 1 now).1.recognition_score
      ∧ (updateFromExposure cfg (exposureIter cfg now n) 1 now).1.recognition_score < 100
    rw [exposure_recognition_step]
    constructor
    · exact le_min (by norm_num) (by nlinarith)
    · rw [min_eq_right (by nlinarith)]
      nlinarith

/-- The clamp at 100 is never active on this trajectory. -/
theorem exposureIter_succ_eq (cfg : DomainConfig) (now : ℚ) (n : ℕ) :
    (exposureIter cfg now (n + 1)).recognition_score =
      (exposureIter cfg now n).recognition_score +
        15 * 1 * (1 - (exposureIter cfg now n).recognition_score / 100) := by
  obtain ⟨h0, h1⟩ := exposureIter_bounds cfg now n
  show (updateFromExposure cfg (exposureIter cfg now n) 1 now).1.recognition_score = _
  rw [exposure_recognition_step, min_eq_right (by nlinarith)]

/-- C5: starting from a fresh record, one full-quality exposure yields
recognition exactly 15, a second yields exactly 27.75, and along the whole
trajectory recognition strictly increases with strictly decreasing
increments while never exceeding 100. -/
theorem exposure_growth (cfg : DomainConfig) (now : ℚ) :
    (exposureIter cfg now 1).recognition_score = 15
    ∧ (exposureIter cfg now 2).recognition_score = 27.75
    ∧ (∀ n : ℕ, (exposureIter cfg now n).recognition_score <
        (exposureIter cfg now (n + 1)).recognition_score)
    ∧ (∀ n : ℕ, (exposureIter cfg now n).recognition_score ≤ 100)
    ∧ (∀ n : ℕ, (exposureIter cfg now (n + 2)).recognition_score -
          (exposureIter cfg now (n + 1)).recognition_score <
        (exposureIter cfg now (n + 1)).recognition_score -
          (exposureIter cfg now n).recognition_score) := by
  have h0 : (exposureIter cfg now 0).recognition_score = 0 := rfl
  have h1 : (exposureIter cfg now 1).recognition_score = 15 := by
    rw [exposureIter_succ_eq, h0]; norm_num
  have h2 : (exposureIter cfg now 2).recognition_score = 27.75 := by
    rw [exposureIter_succ_eq, h1]; norm_num
  refine ⟨h1, h2, ?_, ?_, ?_⟩
  · intro n
    obtain ⟨g0, g1⟩ := exposureIter_bounds cfg now n
    rw [exposureIter_succ_eq]
    nlinarith
  · intro n
    exact le_of_lt (exposureIter_bounds cfg now n).2
  · intro n
    obtain ⟨g0, g1⟩ := exposureIter_bounds cfg now n
    obtain ⟨k0, k1⟩ := exposureIter_bounds cfg now (n + 1)
    have hstep := exposureIter_succ_eq cfg now n
    have hstep2 := exposureIter_succ_eq cfg now (n + 1)
    nlinarith

/-! ## C6: time-based decay -/

/-- C6: `apply_decay` is the identity under the exposure-count and
assessment-based models; under spaced-repetition or hybrid it maps every
record through the per-record decay, which leaves records without a
`last_exposure` unchanged and otherwise subtracts
`decay·0.5 / decay·0.7 / decay·1.0` (with
`decay = mastery_decay_rate · ⌊now − last_exposure⌋` whole days) from the
three dimensions, flooring each at 0, so no dimension is driven below 0. -/
theorem apply_decay_spec :
    (∀ (cfg : DomainConfig) (records : List ConceptMastery) (now : ℚ),
        cfg.mastery_model = .EXPOSURE_COUNT ∨
          cfg.mastery_model = .ASSESSMENT_BASED →
        applyDecay cfg records now = records)
    ∧ (∀ (cfg : DomainConfig) (records : List ConceptMastery) (now : ℚ),
        cfg.mastery_model = .SPACED_REPETITION ∨ cfg.mastery_model = .HYBRID →
        applyDecay cfg records now = records.map (applyDecayRecord cfg now))
    ∧ (∀ (cfg : DomainConfig) (now : ℚ) (m : ConceptMastery),
        m.last_exposure = none → applyDecayRecord cfg now m = m)
    ∧ (∀ (cfg : DomainConfig) (now : ℚ) (m : ConceptMastery) (last : ℚ),
        m.last_exposure = some last →
        (applyDecayRecord cfg now m).recognition_score =
          max 0 (m.recognition_score -
            cfg.mastery_decay_rate * ((⌊now - last⌋ : ℤ) : ℚ) * 0.5)
        ∧ (applyDecayRecord cfg now m).comprehension_score =
          max 0 (m.comprehension_score -
            cfg.mastery_decay_rate * ((⌊now - last⌋ : ℤ) : ℚ) * 0.7)
        ∧ (applyDecayRecord cfg now m).application_score =
          max 0 (m.application_score -
            cfg.mastery_decay_rate * ((⌊now - last⌋ : ℤ) : ℚ) * 1.0)
        ∧ 0 ≤ (applyDecayRecord cfg now m).recognition_score
        ∧ 0 ≤ (applyDecayRecord cfg now m).comprehension_score
        ∧ 0 ≤ (applyDecayRecord cfg now m).application_score) := by
  refine ⟨?_, ?_, ?_, ?_⟩
  · intro cfg records now h
    unfold applyDecay
    rcases h with h | h <;> rw [h] <;> simp
  · intro cfg records now h
    unfold applyDecay
    rcases h with h | h <;> rw [h] <;> simp
  · intro cfg now m h
    unfold applyDecayRecord
    rw [h]
  · intro cfg now m last h
    unfold applyDecayRecord
    rw [h]
    exact ⟨rfl, rfl, rfl, le_max_left _ _, le_max_left _ _, le_max_left _ _⟩

/-- An exposure-count domain configuration used in concrete statements. -/
def cfgExposure : DomainConfig :=
  { domain_id := "d", mastery_model := .EXPOSURE_COUNT }

/-- C6 (witness): decay is the identity under the exposure-count model. -/
theorem apply_decay_spec_witness :
    (cfgExposure.mastery_model = .EXPOSURE_COUNT ∨
      cfgExposure.mastery_model = .ASSESSMENT_BASED)
    ∧ applyDecay cfgExposure [freshMastery] 0 = [freshMastery] :=
  ⟨Or.inl rfl, apply_decay_spec.1 cfgExposure [freshMastery] 0 (Or.inl rfl)⟩

/-! ## Concrete concepts and graphs -/

/-- Concept `A`, no prerequisites. -/
def conceptA : Concept :=
  { concept_id := "A", domain_id := "d", name := "A", description := "" }

/-- Concept `B`, prerequisite `A`. -/
def conceptB : Concept :=
  { concept_id := "B", domain_id := "d", name := "B", description := "",
    prerequisites := ["A"] }

/-- Concept `C`, prerequisite `B`. -/
def conceptC : Concept :=
  { concept_id := "C", domain_id := "d", name := "C", description := "",
    prerequisites := ["B"] }

/-- The two-concept graph `A ← B`. -/
def gAB : ConceptGraph := buildGraph "d" [conceptA, conceptB]

/-- The linear chain `A ← B ← C`. -/
def chainGraph : ConceptGraph := buildGraph "d" [conceptA, conceptB, conceptC]

/-! ## C8: ready-to-learn concepts -/

/-- C8: `get_next_concepts(mastered)` returns exactly the concept ids in
the graph that are not yet mastered and whose full prerequisite list is
contained in the mastered set; on the graph `A ← B`, the empty mastered
set unlocks exactly `A`, and after mastering `A` the concept `B` is
included. -/
theorem get_next_concepts_spec :
    (∀ (g : ConceptGraph) (mastered : List String) (cid : String),
        cid ∈ g.get_next_concepts mastered ↔
          cid ∈ g.concepts.map Prod.fst ∧ cid ∉ mastered ∧
            ∀ p ∈ g.get_prerequisites cid, p ∈ mastered)
    ∧ gAB.get_next_concepts [] = ["A"]
    ∧ "B" ∈ gAB.get_next_concepts ["A"] := by
  refine ⟨?_, by decide, by decide⟩
  intro g mastered cid
  unfold ConceptGraph.get_next_concepts
  simp [List.mem_filter, and_assoc]

/-! ## C10: construction-order independence of the edge sets -/

theorem add_concept_prereq_edges (g : ConceptGraph) (c : Concept) :
    (g.add_concept c).prerequisite_edges =
      g.prerequisite_edges ++ c.prerequisites.map (fun p => (p, c.concept_id)) := by
  unfold ConceptGraph.add_concept
  dsimp only
  split <;> rfl

theorem add_concept_hierarchy_edges (g : ConceptGraph) (c : Concept) :
    (g.add_concept c).hierarchy_edges =
      g.hierarchy_edges ++ (match c.parent_concept with
        | some p => [(p, c.concept_id)]
        | none => []) := by
  unfold ConceptGraph.add_concept
  dsimp only
  split <;> simp_all

theorem add_concept_related_edges (g : ConceptGraph) (c : Concept) :
    (g.add_concept c).related_edges =
      c.related_concepts.foldl
        (fun es related =>
          if (c.concept_id, related) ∈ es then es
          else es ++ [(c.concept_id, related)])
        g.related_edges := by
  unfold ConceptGraph.add_concept
  dsimp only
  split <;> rfl

/-- Membership in the deduplicating related-edge fold. -/
theorem mem_relFold (cid : String) : ∀ (rs : List String)
    (es : List (String × String)) (e : String × String),
    e ∈ rs.foldl
        (fun es r => if (cid, r) ∈ es then es else es ++ [(cid, r)]) es ↔
      e ∈ es ∨ ∃ r ∈ rs, e = (cid, r) := by
  intro rs
  induction rs with
  | nil => simp
  | cons r rs ih =>
    intro es e
    rw [List.foldl_cons, ih]
    have hstep : e ∈ (if (cid, r) ∈ es then es else es ++ [(cid, r)]) ↔
        e ∈ es ∨ e = (cid, r) := by
      split_ifs with h
      · exact ⟨Or.inl, fun he => he.elim id (fun hr => hr ▸ h)⟩
      · simp
    rw [hstep, List.exists_mem_cons_iff]
    tauto

theorem mem_buildFold_prereq : ∀ (l : List Concept) (g : ConceptGraph)
    (e : String × String),
    e ∈ (l.foldl ConceptGraph.add_concept g).prerequisite_edges ↔
      e ∈ g.prerequisite_edges ∨
        ∃ c ∈ l, e.1 ∈ c.prerequisites ∧ e.2 = c.concept_id := by
  intro l
  induction l with
  | nil => simp
  | cons c l ih =>
    intro g e
    rw [List.foldl_cons, ih, add_concept_prereq_edges, List.exists_mem_cons_iff]
    simp only [List.mem_append, List.mem_map]
    constructor
    · rintro (⟨hg | ⟨p, hp, hpe⟩⟩ | hl)
      · exact Or.inl hg
      · exact Or.inr (Or.inl ⟨by rw [← hpe]; exact hp, by rw [← hpe]⟩)
      · exact Or.inr (Or.inr hl)
    · rintro (hg | ⟨h1, h2⟩ | hl)
      · exact Or.inl (Or.inl hg)
      · exact Or.inl (Or.inr ⟨e.1, h1, by rw [← h2]⟩)
      · exact Or.inr hl

theorem mem_buildFold_related : ∀ (l : List Concept) (g : ConceptGraph)
    (e : String × String),
    e ∈ (l.foldl ConceptGraph.add_concept g).related_edges ↔
      e ∈ g.related_edges ∨
        ∃ c ∈ l, ∃ r ∈ c.related_concepts, e = (c.concept_id, r) := by
  intro l
  induction l with
  | nil => simp
  | cons c l ih =>
    intro g e
    rw [List.foldl_cons, ih, add_concept_related_edges, mem_relFold,
      List.exists_mem_cons_iff]
    exact or_assoc

theorem mem_buildFold_hierarchy : ∀ (l : List Concept) (g : ConceptGraph)
    (e : String × String),
    e ∈ (l.foldl ConceptGraph.add_concept g).hierarchy_edges ↔
      e ∈ g.hierarchy_edges ∨
        ∃ c ∈ l, c.parent_concept = some e.1 ∧ e.2 = c.concept_id := by
  intro l
  induction l with
  | nil => simp
  | cons c l ih =>
    intro g e
    rw [List.foldl_cons, ih, add_concept_hierarchy_edges,
      List.exists_mem_cons_iff]
    have hstep : e ∈ (match c.parent_concept with
        | some p => [(p, c.concept_id)]
        | none => ([] : List (String × String))) ↔
        c.parent_concept = some e.1 ∧ e.2 = c.concept_id := by
      cases hp : c.parent_concept with
      | none => simp
      | some p =>
        simp only [List.mem_singleton, Prod.ext_iff, Option.some.injEq]
        constructor
        · rintro ⟨h1, h2⟩
          exact ⟨by rw [h1], h2⟩
        · rintro ⟨h1, h2⟩
          exact ⟨h1.symm, h2⟩
    rw [List.mem_append, hstep]
    exact or_assoc

/-- C10: the three edge sets produced by inserting a batch of concepts via
`add_concept` do not depend on the insertion order: a permutation of the
batch yields the same membership in each edge list. -/
theorem add_concept_order_invariance (l1 l2 : List Concept) (d : String)
    (h : l1.Perm l2) (e : String × String) :
    (e ∈ (buildGraph d l1).prerequisite_edges ↔
      e ∈ (buildGraph d l2).prerequisite_edges)
    ∧ (e ∈ (buildGraph d l1).related_edges ↔
      e ∈ (buildGraph d l2).related_edges)
    ∧ (e ∈ (buildGraph d l1).hierarchy_edges ↔
      e ∈ (buildGraph d l2).hierarchy_edges) := by
  have hperm : ∀ P : Concept → Prop, (∃ c ∈ l1, P c) ↔ ∃ c ∈ l2, P c := by
    intro P
    constructor
    · rintro ⟨c, hc, hp⟩
      exact ⟨c, h.subset hc, hp⟩
    · rintro ⟨c, hc, hp⟩
      exact ⟨c, h.symm.subset hc, hp⟩
  unfold buildGraph
  refine ⟨?_, ?_, ?_⟩
  · rw [mem_buildFold_prereq, mem_buildFold_prereq]
    exact or_congr Iff.rfl (hperm _)
  · rw [mem_buildFold_related, mem_buildFold_related]
    exact or_congr Iff.rfl (hperm _)
  · rw [mem_buildFold_hierarchy, mem_buildFold_hierarchy]
    exact or_congr Iff.rfl (hperm _)

/-- C10 (witness): inserting `A, B` and `B, A` yields the same
prerequisite-edge membership for the edge `("A", "B")`. -/
theorem add_concept_order_invariance_witness :
    ([conceptA, conceptB]).Perm [conceptB, conceptA] ∧
      (("A", "B") ∈ (buildGraph "d" [conceptA, conceptB]).prerequisite_edges ↔
        ("A", "B") ∈ (buildGraph "d" [conceptB, conceptA]).prerequisite_edges) :=
  ⟨List.Perm.swap conceptB conceptA [],
    (add_concept_order_invariance [conceptA, conceptB] [conceptB, conceptA] "d"
      (List.Perm.swap conceptB conceptA []) ("A", "B")).1⟩

/-! ## C7: learning-path traversal

Infrastructure for the `get_learning_path` depth-first search: the
prerequisite relation, the visited-node measure driving the fuel bound,
and the topological-order predicate on paths. -/

/-- `c` directly requires `p`: there is a prerequisite edge `(p, c)`. -/
def Requires (E : List (String × String)) (c p : String) : Prop :=
  p ∈ ConceptGraph.prereqsOf E c

/-- Every node a non-root `dfs` call can be invoked on: the sources of
the prerequisite edges, deduplicated. -/
def nodeUniv (E : List (String × String)) : List String :=
  (E.map Prod.fst).dedup

/-- Number of universe nodes not yet visited. -/
def meas (E : List (String × String)) (v : List String) : ℕ :=
  ((nodeUniv E).filter (fun x => decide (x ∉ v))).length

/-- The visited set is exactly the finished path plus the gray set `A`
of calls currently on the recursion stack. -/
def InvVP (A : List String) (s : ConceptGraph.DfsSt) : Prop :=
  ∀ x, x ∈ s.visited ↔ x ∈ s.path ∨ x ∈ A

/-- Every element of the path has all its direct prerequisites at
strictly earlier positions. -/
def GoodPath (E : List (String × String)) (l : List String) : Prop :=
  ∀ (i : ℕ) (hi : i < l.length) (p : String),
    Requires E (l.get ⟨i, hi⟩) p →
    ∃ (j : ℕ) (hj : j < l.length), j < i ∧ l.get ⟨j, hj⟩ = p

theorem length_filter_not_mem_mono (l : List String) (v w : List String)
    (hvw : ∀ x, x ∈ v → x ∈ w) :
    (l.filter (fun x => decide (x ∉ w))).length ≤
      (l.filter (fun x => decide (x ∉ v))).length := by
  induction l with
  | nil => simp
  | cons a l ih =>
    rw [List.filter_cons, List.filter_cons]
    by_cases hav : a ∈ v
    · have haw : a ∈ w := hvw a hav
      rw [if_neg (by simp [haw]), if_neg (by simp [hav])]
      exact ih
    · by_cases haw : a ∈ w
      · rw [if_neg (by simp [haw]), if_pos (by simp [hav])]
        refine le_trans ih ?_
        rw [List.length_cons]
        omega
      · rw [if_pos (by simp [haw]), if_pos (by simp [hav])]
        rw [List.length_cons, List.length_cons]
        omega

theorem filter_not_mem_cons_of_not_mem (l : List String) (c : String)
    (hc : c ∉ l) (v : List String) :
    l.filter (fun x => decide (x ∉ c :: v)) = l.filter (fun x => decide (x ∉ v)) := by
  apply List.filter_congr
  intro x hx
  have hxc : x ≠ c := fun h => hc (h ▸ hx)
  simp [List.mem_cons, hxc]

theorem length_filter_not_mem_cons : ∀ (l : List String), l.Nodup →
    ∀ (c : String) (v : List String), c ∈ l → c ∉ v →
    (l.filter (fun x => decide (x ∉ c :: v))).length + 1 =
      (l.filter (fun x => decide (x ∉ v))).length := by
  intro l
  induction l with
  | nil => intro _ c v hcl _; cases hcl
  | cons a l ih =>
    intro hl c v hcl hcv
    obtain ⟨hal, hnl⟩ := List.nodup_cons.mp hl
    rw [List.filter_cons, List.filter_cons]
    by_cases hca : c = a
    · subst hca
      rw [if_neg (by simp), if_pos (by simp [hcv])]
      rw [filter_not_mem_cons_of_not_mem l c hal v]
      rw [List.length_cons]
    · have hcl' : c ∈ l := (List.mem_cons.mp hcl).resolve_left hca
      have hac : a ≠ c := fun h => hca h.symm
      by_cases hav : a ∈ v
      · rw [if_neg (by simp [List.mem_cons, hav]), if_neg (by simp [hav])]
        exact ih hnl c v hcl' hcv
      · rw [if_pos (by simp [List.mem_cons, hav, hac]), if_pos (by simp [hav])]
        rw [List.length_cons, List.length_cons]
        have := ih hnl c v hcl' hcv
        omega

/-- Every prerequisite of any node is an edge source, hence in the
universe. -/
theorem mem_nodeUniv_of_prereq (E : List (String × String)) (c p : String)
    (h : p ∈ ConceptGraph.prereqsOf E c) : p ∈ nodeUniv E := by
  unfold ConceptGraph.prereqsOf at h
  rw [List.mem_map] at h
  obtain ⟨e, he, rfl⟩ := h
  exact List.mem_dedup.mpr (List.mem_map_of_mem Prod.fst (List.mem_of_mem_filter he))

/-- Appending a node whose direct prerequisites all already occur in the
path preserves the ordering property. -/
theorem GoodPath_append (E : List (String × String)) (l : List String)
    (c : String) (hl : GoodPath E l) (hc : ∀ p, Requires E c p → p ∈ l) :
    GoodPath E (l ++ [c]) := by
  intro i hi p hp
  by_cases hil : i < l.length
  · have hget : (l ++ [c]).get ⟨i, hi⟩ = l.get ⟨i, hil⟩ := by
      rw [List.get_eq_getElem, List.get_eq_getElem]
      exact List.getElem_append_left hil
    obtain ⟨j, hj, hji, hjp⟩ := hl i hil p (by rw [← hget]; exact hp)
    refine ⟨j, by rw [List.length_append]; omega, hji, ?_⟩
    rw [List.get_eq_getElem, List.getElem_append_left hj]
    exact hjp
  · have hieq : i = l.length := by
      rw [List.length_append] at hi
      simp at hi
      omega
    have hget : (l ++ [c]).get ⟨i, hi⟩ = c := by
      rw [List.get_eq_getElem]
      exact List.getElem_concat_length l c i hieq _
    have hpl : p ∈ l := hc p (by rw [← hget]; exact hp)
    obtain ⟨⟨j, hj⟩, hjp⟩ := List.mem_iff_get.mp hpl
    refine ⟨j, by rw [List.length_append]; omega, by omega, ?_⟩
    rw [List.get_eq_getElem, List.getElem_append_left hj]
    exact hjp

/-- In a path whose direct prerequisites always occur earlier, all
transitive prerequisites occur earlier as well. -/
theorem GoodPath_find (E : List (String × String)) (l : List String)
    (hl : GoodPath E l) (a p : String)
    (htg : Relation.TransGen (Requires E) a p) :
    ∀ (i : ℕ) (hi : i < l.length), l.get ⟨i, hi⟩ = a →
      ∃ (j : ℕ) (hj : j < l.length), j < i ∧ l.get ⟨j, hj⟩ = p := by
  induction htg using Relation.TransGen.head_induction_on with
  | base h =>
    intro i hi hget
    exact hl i hi p (by rw [hget]; exact h)
  | ih hstep htail ihp =>
    intro i hi hget
    obtain ⟨j, hj, hji, hjc⟩ := hl i hi _ (by rw [hget]; exact hstep)
    obtain ⟨k, hk, hkj, hkp⟩ := ihp j hj hjc
    exact ⟨k, hk, lt_trans hkj hji, hkp⟩

/-- Postcondition of a single `dfs` call from state `s` with gray set
`A`: the path is extended, the invariants are preserved, `c` is visited,
and every new visit is reachable from `c` along the requires relation. -/
def DfsPost (E : List (String × String)) (c : String)
    (s s' : ConceptGraph.DfsSt) (A : List String) : Prop :=
  (∃ t, s'.path = s.path ++ t)
  ∧ InvVP A s'
  ∧ GoodPath E s'.path
  ∧ (∀ x, x ∈ s.visited → x ∈ s'.visited)
  ∧ c ∈ s'.visited
  ∧ (∀ x, x ∈ s'.visited →
      x ∈ s.visited ∨ x = c ∨ Relation.TransGen (Requires E) c x)

/-- Postcondition of folding `dfs` over a list of children. -/
def ListPost (E : List (String × String)) (ps : List String)
    (s s' : ConceptGraph.DfsSt) (A : List String) : Prop :=
  (∃ t, s'.path = s.path ++ t)
  ∧ InvVP A s'
  ∧ GoodPath E s'.path
  ∧ (∀ x, x ∈ s.visited → x ∈ s'.visited)
  ∧ (∀ p ∈ ps, p ∈ s'.visited)
  ∧ (∀ x, x ∈ s'.visited →
      x ∈ s.visited ∨ ∃ p ∈ ps, x = p ∨ Relation.TransGen (Requires E) p x)

theorem dfsList_ok (E : List (String × String)) (n : ℕ)
    (hrec : ∀ (c : String) (s : ConceptGraph.DfsSt) (A : List String),
      (∀ a ∈ A, Relation.TransGen (Requires E) a c) →
      InvVP A s → GoodPath E s.path →
      meas E s.visited + (if c ∈ nodeUniv E then 1 else 2) ≤ n →
      DfsPost E c s (ConceptGraph.dfs E n c s) A) :
    ∀ (ps : List String) (s : ConceptGraph.DfsSt) (A : List String),
      (∀ p ∈ ps, p ∈ nodeUniv E) →
      (∀ p ∈ ps, ∀ a ∈ A, Relation.TransGen (Requires E) a p) →
      InvVP A s → GoodPath E s.path →
      meas E s.visited + 1 ≤ n →
      ListPost E ps s (ps.foldl (fun t p => ConceptGraph.dfs E n p t) s) A := by
  intro ps
  induction ps with
  | nil =>
    intro s A hU hA hInv hGood hfuel
    exact ⟨⟨[], by simp⟩, hInv, hGood, fun x h => h, by simp,
      fun x h => Or.inl h⟩
  | cons p ps ihp =>
    intro s A hU hA hInv hGood hfuel
    rw [List.foldl_cons]
    have hpU : p ∈ nodeUniv E := hU p (List.mem_cons_self p ps)
    obtain ⟨⟨t1, hpath1⟩, hInv1, hGood1, hsub1, hpvis1, hnew1⟩ :=
      hrec p s A (fun a ha => hA p (List.mem_cons_self p ps) a ha) hInv hGood
        (by rw [if_pos hpU]; omega)
    have hmeas : meas E (ConceptGraph.dfs E n p s).visited ≤ meas E s.visited :=
      length_filter_not_mem_mono (nodeUniv E) s.visited _ hsub1
    obtain ⟨⟨t2, hpath2⟩, hInv2, hGood2, hsub2, hvis2, hnew2⟩ :=
      ihp (ConceptGraph.dfs E n p s) A
        (fun q hq => hU q (List.mem_cons_of_mem p hq))
        (fun q hq a ha => hA q (List.mem_cons_of_mem p hq) a ha)
        hInv1 hGood1 (by omega)
    refine ⟨⟨t1 ++ t2, by rw [hpath2, hpath1, List.append_assoc]⟩, hInv2, hGood2,
      fun x hx => hsub2 x (hsub1 x hx), ?_, ?_⟩
    · intro q hq
      rcases List.mem_cons.mp hq with rfl | hq'
      · exact hsub2 q hpvis1
      · exact hvis2 q hq'
    · intro x hx
      rcases hnew2 x hx with hx1 | ⟨q, hq, hcase⟩
      · rcases hnew1 x hx1 with hxs | hxc
        · exact Or.inl hxs
        · exact Or.inr ⟨p, List.mem_cons_self p ps, hxc⟩
      · exact Or.inr ⟨q, List.mem_cons_of_mem p hq, hcase⟩

theorem dfs_ok (E : List (String × String))
    (hac : ∀ x, ¬ Relation.TransGen (Requires E) x x) :
    ∀ (n : ℕ) (c : String) (s : ConceptGraph.DfsSt) (A : List String),
      (∀ a ∈ A, Relation.TransGen (Requires E) a c) →
      InvVP A s → GoodPath E s.path →
      meas E s.visited + (if c ∈ nodeUniv E then 1 else 2) ≤ n →
      DfsPost E c s (ConceptGraph.dfs E n c s) A := by
  intro n
  induction n with
  | zero =>
    intro c s A _ _ _ hfuel
    exfalso
    split_ifs at hfuel <;> omega
  | succ n ih =>
    intro c s A hA hInv hGood hfuel
    by_cases hc : c ∈ s.visited
    · have hd : ConceptGraph.dfs E (n + 1) c s = s := by
        show (if c ∈ s.visited then s else _) = s
        rw [if_pos hc]
      rw [hd]
      exact ⟨⟨[], by simp⟩, hInv, hGood, fun x h => h, hc, fun x h => Or.inl h⟩
    · have hd : ConceptGraph.dfs E (n + 1) c s =
        ⟨((ConceptGraph.prereqsOf E c).foldl
            (fun t p => ConceptGraph.dfs E n p t)
            ⟨c :: s.visited, s.path⟩).visited,
          ((ConceptGraph.prereqsOf E c).foldl
            (fun t p => ConceptGraph.dfs E n p t)
            ⟨c :: s.visited, s.path⟩).path ++ [c]⟩ := by
        show (if c ∈ s.visited then s else _) = _
        rw [if_neg hc]
      rw [hd]
      have hA' : ∀ p ∈ ConceptGraph.prereqsOf E c, ∀ a ∈ c :: A,
          Relation.TransGen (Requires E) a p := by
        intro p hp a ha
        rcases List.mem_cons.mp ha with rfl | haA
        · exact Relation.TransGen.single hp
        · exact Relation.TransGen.tail (hA a haA) hp
      have hInv1 : InvVP (c :: A) ⟨c :: s.visited, s.path⟩ := by
        intro x
        have hx0 := hInv x
        constructor
        · intro hx
          rcases List.mem_cons.mp hx with rfl | hx'
          · exact Or.inr (List.mem_cons_self _ _)
          · rcases hx0.mp hx' with h | h
            · exact Or.inl h
            · exact Or.inr (List.mem_cons_of_mem _ h)
        · intro hx
          rcases hx with h | h
          · exact List.mem_cons_of_mem _ (hx0.mpr (Or.inl h))
          · rcases List.mem_cons.mp h with rfl | h'
            · exact List.mem_cons_self _ _
            · exact List.mem_cons_of_mem _ (hx0.mpr (Or.inr h'))
      have hfuel1 : meas E (c :: s.visited) + 1 ≤ n := by
        by_cases hcu : c ∈ nodeUniv E
        · rw [if_pos hcu] at hfuel
          have heq : meas E (c :: s.visited) + 1 = meas E s.visited :=
            length_filter_not_mem_cons (nodeUniv E) (List.nodup_dedup _) c
              s.visited hcu hc
          omega
        · rw [if_neg hcu] at hfuel
          have heq : meas E (c :: s.visited) = meas E s.visited :=
            congrArg List.length
              (filter_not_mem_cons_of_not_mem (nodeUniv E) c hcu s.visited)
          omega
      obtain ⟨⟨t2, hpath2⟩, hInv2, hGood2, hsub2, hvis2, hnew2⟩ :=
        dfsList_ok E n ih (ConceptGraph.prereqsOf E c) ⟨c :: s.visited, s.path⟩
          (c :: A) (fun p hp => mem_nodeUniv_of_prereq E c p hp) hA' hInv1
          hGood hfuel1
      refine ⟨⟨t2 ++ [c], ?_⟩, ?_, ?_, ?_, ?_, ?_⟩
      · show _ ++ [c] = s.path ++ (t2 ++ [c])
        rw [hpath2]
        exact (List.append_assoc _ _ _)
      · intro x
        have h2 := hInv2 x
        constructor
        · intro hx
          rcases h2.mp hx with hp | hca
          · exact Or.inl (List.mem_append_left _ hp)
          · rcases List.mem_cons.mp hca with rfl | hxa
            · exact Or.inl (List.mem_append_right _ (List.mem_singleton.mpr rfl))
            · exact Or.inr hxa
        · intro hx
          rcases hx with hp | hxa
          · rcases List.mem_append.mp hp with h | h
            · exact h2.mpr (Or.inl h)
            · rw [List.mem_singleton] at h
              exact h2.mpr (Or.inr (h ▸ List.mem_cons_self _ _))
          · exact h2.mpr (Or.inr (List.mem_cons_of_mem _ hxa))
      · apply GoodPath_append E _ c hGood2
        intro p hp
        have hpv : p ∈ _ := hvis2 p hp
        rcases (hInv2 p).mp hpv with h | h
        · exact h
        · exfalso
          rcases List.mem_cons.mp h with rfl | hpa
          · exact hac p (Relation.TransGen.single hp)
          · exact hac p (Relation.TransGen.tail (hA p hpa) hp)
      · intro x hx
        exact hsub2 x (List.mem_cons_of_mem _ hx)
      · exact hsub2 c (List.mem_cons_self _ _)
      · intro x hx
        rcases hnew2 x hx with hx1 | ⟨p, hp, hcase⟩
        · rcases List.mem_cons.mp hx1 with rfl | hxs
          · exact Or.inr (Or.inl rfl)
          · exact Or.inl hxs
        · rcases hcase with rfl | htg
          · exact Or.inr (Or.inr (Relation.TransGen.single hp))
          · exact Or.inr (Or.inr (Relation.TransGen.head hp htg))

/-- C7 (amended): when the prerequisite relation is acyclic, every
element of `get_learning_path(target)` appears after all of its
transitively required prerequisites (which in particular are all in the
path); and on the linear chain `A ← B ← C` the path for `C` is exactly
`[A, B, C]`. -/
theorem get_learning_path_topo (g : ConceptGraph) (target : String)
    (hac : ∀ x, ¬ Relation.TransGen (Requires g.prerequisite_edges) x x) :
    (∀ (i : ℕ) (hi : i < (g.get_learning_path target).length) (p : String),
        Relation.TransGen (Requires g.prerequisite_edges)
          ((g.get_learning_path target).get ⟨i, hi⟩) p →
        ∃ (j : ℕ) (hj : j < (g.get_learning_path target).length),
          j < i ∧ (g.get_learning_path target).get ⟨j, hj⟩ = p)
    ∧ chainGraph.get_learning_path "C" = ["A", "B", "C"] := by
  constructor
  · obtain ⟨-, -, hGood, -, -, -⟩ :=
      dfs_ok g.prerequisite_edges hac
        (ConceptGraph.fuelBound g.prerequisite_edges) target ⟨[], []⟩ []
        (fun a ha => absurd ha (List.not_mem_nil a))
        (fun x => by simp [InvVP])
        (fun i hi p _ => absurd hi (by simp))
        (by
          have hle : meas g.prerequisite_edges [] ≤
              (nodeUniv g.prerequisite_edges).length :=
            List.length_filter_le _ _
          show meas g.prerequisite_edges [] + _ ≤
            (nodeUniv g.prerequisite_edges).length + 2
          split_ifs <;> omega)
    intro i hi p htg
    exact GoodPath_find g.prerequisite_edges _ hGood _ p htg i hi rfl
  · decide

/-- Concept `A` of the cyclic pair: requires `B`. -/
def conceptAcyc : Concept :=
  { concept_id := "A", domain_id := "d", name := "A", description := "",
    prerequisites := ["B"] }

/-- Concept `B` of the cyclic pair: requires `A`. -/
def conceptBcyc : Concept :=
  { concept_id := "B", domain_id := "d", name := "B", description := "",
    prerequisites := ["A"] }

/-- The two-cycle graph `A ⇄ B`. -/
def cycGraph : ConceptGraph := buildGraph "d" [conceptAcyc, conceptBcyc]

/-- C7 (counterexample): on the cyclic graph `A ⇄ B`,
`get_learning_path("A")` returns `["B", "A"]`, in which `B` does *not*
appear after its transitively required prerequisite `A` — even though `A`
is reachable from the target (it *is* the target) — so the claim fails as
stated for graphs with prerequisite cycles. -/
theorem get_learning_path_cex :
    cycGraph.get_learning_path "A" = ["B", "A"]
    ∧ ¬ (∀ (i : ℕ) (hi : i < (cycGraph.get_learning_path "A").length)
          (p : String),
        Relation.TransGen (Requires cycGraph.prerequisite_edges)
          ((cycGraph.get_learning_path "A").get ⟨i, hi⟩) p →
        Relation.ReflTransGen (Requires cycGraph.prerequisite_edges) "A" p →
        ∃ (j : ℕ) (hj : j < (cycGraph.get_learning_path "A").length),
          j < i ∧ (cycGraph.get_learning_path "A").get ⟨j, hj⟩ = p) := by
  have hpath : cycGraph.get_learning_path "A" = ["B", "A"] := by decide
  refine ⟨hpath, fun h => ?_⟩
  have hreq : "A" ∈ ConceptGraph.prereqsOf cycGraph.prerequisite_edges "B" := by
    decide
  have hlen : 0 < (cycGraph.get_learning_path "A").length := by
    rw [hpath]
    norm_num
  obtain ⟨j, hj, hj0, -⟩ :=
    h 0 hlen "A" (Relation.TransGen.single hreq) Relation.ReflTransGen.refl
  omega

/-- Rank function witnessing acyclicity of the linear chain. -/
def chainRank (s : String) : ℕ :=
  if s = "A" then 0 else if s = "B" then 1 else 2

theorem chain_step_rank (c p : String)
    (h : Requires chainGraph.prerequisite_edges c p) :
    chainRank p < chainRank c := by
  have hE : chainGraph.prerequisite_edges = [("A", "B"), ("B", "C")] := by decide
  unfold Requires at h
  rw [hE] at h
  unfold ConceptGraph.prereqsOf at h
  simp only [List.mem_map, List.mem_filter, List.mem_cons, List.not_mem_nil,
    or_false, decide_eq_true_eq] at h
  obtain ⟨e, ⟨he, hec⟩, hep⟩ := h
  rcases he with rfl | rfl
  · rw [← hec, ← hep]
    decide
  · rw [← hec, ← hep]
    decide

theorem chainGraph_acyclic :
    ∀ x, ¬ Relation.TransGen (Requires chainGraph.prerequisite_edges) x x := by
  have hrank : ∀ x y,
      Relation.TransGen (Requires chainGraph.prerequisite_edges) x y →
      chainRank y < chainRank x := by
    intro x y h
    induction h with
    | single h => exact chain_step_rank _ _ h
    | tail _ hstep ih => exact lt_trans (chain_step_rank _ _ hstep) ih
  exact fun x htg => lt_irrefl _ (hrank x x htg)

/-- C7 (witness for the amended theorem on the acyclic linear chain). -/
theorem get_learning_path_topo_witness :
    (∀ x, ¬ Relation.TransGen (Requires chainGraph.prerequisite_edges) x x)
    ∧ chainGraph.get_learning_path "C" = ["A", "B", "C"] :=
  ⟨chainGraph_acyclic,
    (get_learning_path_topo chainGraph "C" chainGraph_acyclic).2⟩

end Holocron
